import Mathlib

/-!
Rihla features showcase: carousel engine, gesture interpreter, scroll mapper

A shallow embedding of `src/components/ExclusiveFeaturesSection.jsx`.

* React state (`currentIndex`, `direction`) and the ref `userInteractedRef`
  are the three fields of `CarouselState`; every handler is a function from
  the committed state to the next committed state.
* A handler is a closure of the render that created it. `next`, `prev` and
  `handleDragRequest` read the `currentIndex` of that render, which is an
  explicit argument here: the card that is leaving under
  `<AnimatePresence mode="wait">` keeps the `onDragRequest` of its own render,
  so a drag released on it runs with an index older than the committed one.
  Arrow buttons, dots and the interval callback are re-created on every commit
  and always read the committed index.
* JavaScript numbers that hold indices are modelled by `Int`; the JavaScript
  remainder `%` is the truncated remainder `Int.tmod`.
* Drag offsets, velocities and scroll progress are modelled by `ℚ`.
-/

namespace Rihla

/-! ## Carousel state and operations -/

/-- JavaScript `a % b` on integers: the remainder has the sign of the dividend. -/
def jsRem (a b : Int) : Int := Int.tmod a b

/-- React state of the mobile carousel: `currentIndex`, `direction` and the
value held by `userInteractedRef.current`. -/
structure CarouselState where
  currentIndex : Int
  direction : Int
  userInteracted : Bool
deriving DecidableEq

/-- State on mount: `useState(0)`, `useState(0)`, `useRef(false)`. -/
def initialState : CarouselState := ⟨0, 0, false⟩

/-- Source: `wrapIndex = (i) => ((i % itemCount) + itemCount) % itemCount`. -/
def wrapIndex (itemCount : Nat) (i : Int) : Int :=
  jsRem (jsRem i (itemCount : Int) + (itemCount : Int)) (itemCount : Int)

/-- Source: `paginate = (newIndex, dir = 1) => { setDirection(dir);
setCurrentIndex(wrapIndex(newIndex)); }`. -/
def paginate (itemCount : Nat) (newIndex dir : Int) (s : CarouselState) : CarouselState :=
  ⟨wrapIndex itemCount newIndex, dir, s.userInteracted⟩

/-- Source: `next = useCallback(() => paginate(currentIndex + 1, 1),
[currentIndex, paginate])`. The argument `currentIndex` is the value the closure
captured from the render that created it; `s` is the state committed when the
call is made. -/
def next (itemCount : Nat) (currentIndex : Int) (s : CarouselState) : CarouselState :=
  paginate itemCount (currentIndex + 1) 1 s

/-- Source: `prev = useCallback(() => paginate(currentIndex - 1, -1),
[currentIndex, paginate])`, with the captured `currentIndex` as for `next`. -/
def prev (itemCount : Nat) (currentIndex : Int) (s : CarouselState) : CarouselState :=
  paginate itemCount (currentIndex - 1) (-1) s

/-- Source: `userInteractedRef.current = true`. -/
def markInteracted (s : CarouselState) : CarouselState :=
  ⟨s.currentIndex, s.direction, true⟩

/-- Source: `handleDragRequest = (which) => { userInteractedRef.current = true;
which === "next" ? next() : prev(); }`. It calls the `next` / `prev` of its own
render, whose captured index is `currentIndex`; the ref is shared by all
renders. -/
def handleDragRequest (itemCount : Nat) (currentIndex : Int) (which : String)
    (s : CarouselState) : CarouselState :=
  if which = "next" then next itemCount currentIndex (markInteracted s)
  else prev itemCount currentIndex (markInteracted s)

/-- Source: `handleArrowClick = (dir) => { userInteractedRef.current = true;
dir === "next" ? next() : prev(); }`. The arrow buttons are rendered anew on
every commit, so the captured index is the committed one. -/
def handleArrowClick (itemCount : Nat) (dir : String) (s : CarouselState) : CarouselState :=
  if dir = "next" then next itemCount s.currentIndex (markInteracted s)
  else prev itemCount s.currentIndex (markInteracted s)

/-- Source: the dot `onClick`: `userInteractedRef.current = true;
paginate(idx, idx > currentIndex ? 1 : -1)`. -/
def dotClick (itemCount : Nat) (idx : Int) (s : CarouselState) : CarouselState :=
  paginate itemCount idx (if idx > s.currentIndex then 1 else -1) (markInteracted s)

/-- Source: the `setInterval` callback: `if (!userInteractedRef.current)
paginate(currentIndex + 1, 1); else userInteractedRef.current = false;`. -/
def autoplayTick (itemCount : Nat) (s : CarouselState) : CarouselState :=
  if !s.userInteracted then paginate itemCount (s.currentIndex + 1) 1 s
  else ⟨s.currentIndex, s.direction, false⟩

/-! ## Gesture interpreter -/

/-- Source: `handleDragEnd` of `MobileFeatureCard`; the result is the argument
passed to `onDragRequest`, or `none` when `onDragRequest` is not called. -/
def handleDragEnd (offsetX velocityX : ℚ) : Option String :=
  if offsetX < -80 ∨ velocityX < -500 then some "next"
  else if offsetX > 80 ∨ velocityX > 500 then some "prev"
  else none

/-- A drag released on a card: `handleDragEnd` wired to
`onDragRequest={handleDragRequest}` of the render that created the card, whose
index is `currentIndex`. -/
def onDragEnd (itemCount : Nat) (currentIndex : Int) (offsetX velocityX : ℚ)
    (s : CarouselState) : CarouselState :=
  match handleDragEnd offsetX velocityX with
  | some which => handleDragRequest itemCount currentIndex which s
  | none => s

/-- Source: `cardVariants.enter = (direction) => ({ x: direction > 0 ? 300 : -300, ... })`. -/
def enterX (direction : Int) : Int := if direction > 0 then 300 else -300

/-- Source: `cardVariants.exit = (direction) => ({ x: direction > 0 ? -300 : 300, ... })`. -/
def exitX (direction : Int) : Int := if direction > 0 then -300 else 300

/-! ## Sequences of calls -/

/-- A call of `next` or of `prev`. -/
inductive NavCall where
  | next
  | prev
deriving DecidableEq

/-- Effect of one `next` / `prev` call made through a closure that captured
`currentIndex`. -/
def NavCall.apply (itemCount : Nat) (currentIndex : Int) (s : CarouselState) :
    NavCall → CarouselState
  | .next => Rihla.next itemCount currentIndex s
  | .prev => Rihla.prev itemCount currentIndex s

/-- Signed contribution of a call: `+1` for `next`, `-1` for `prev`. -/
def NavCall.delta : NavCall → Int
  | .next => 1
  | .prev => -1

/-- Number of advances minus number of retreats. -/
def netDelta (calls : List NavCall) : Int := (calls.map NavCall.delta).sum

/-- The calls applied in order, each made through the closure of the render
that the previous call committed, so that it captured the committed index. -/
def runCalls (itemCount : Nat) (calls : List NavCall) (s : CarouselState) : CarouselState :=
  calls.foldl (fun st c => c.apply itemCount st.currentIndex st) s

/-- The calls applied in order, each paired with the index its closure
captured, which may belong to any earlier render. -/
def runClosureCalls (itemCount : Nat) (calls : List (Int × NavCall)) (s : CarouselState) :
    CarouselState :=
  calls.foldl (fun st c => c.2.apply itemCount c.1 st) s

/-- The public operations of the carousel. A drag operation carries
`renderIndex`, the `currentIndex` of the render that created the dragged card. -/
inductive Op where
  | dragRequest (renderIndex : Int) (which : String)
  | dragEnd (renderIndex : Int) (offsetX velocityX : ℚ)
  | arrowClick (dir : String)
  | dotClick (idx : Int)
  | tick

/-- The operation is delivered to a handler of the render showing index `c`:
a drag on the card of that render; arrows, dots and ticks always are. -/
def Op.fromRender (c : Int) : Op → Prop
  | .dragRequest k _ => k = c
  | .dragEnd k _ _ => k = c
  | .arrowClick _ => True
  | .dotClick _ => True
  | .tick => True

/-- Effect of one public operation. -/
def Op.apply (itemCount : Nat) (s : CarouselState) : Op → CarouselState
  | .dragRequest k which => handleDragRequest itemCount k which s
  | .dragEnd k o v => onDragEnd itemCount k o v s
  | .arrowClick dir => handleArrowClick itemCount dir s
  | .dotClick idx => Rihla.dotClick itemCount idx s
  | .tick => autoplayTick itemCount s

/-- The operations applied in order from a given state. -/
def runOps (itemCount : Nat) (ops : List Op) (s : CarouselState) : CarouselState :=
  ops.foldl (Op.apply itemCount) s

/-! ## Scroll progress mapper -/

/-- Modelled from the spec: `useTransform` belongs to the animation library and
is not in the sources. Spec §4.3 describes it as piecewise-linear interpolation
over control points, clamped, with value 0 outside the window. `progress` is
the position of `v` inside one segment `[lo, hi]`. -/
def progress (lo hi v : ℚ) : ℚ := if hi - lo = 0 then 1 else (v - lo) / (hi - lo)

/-- Modelled from the spec: linear blend between two output values (§4.3,
"piecewise-linear interpolation"). -/
def mix (a b t : ℚ) : ℚ := a + (b - a) * t

/-- Modelled from the spec: clamping of the input to the range spanned by
the control points (§4.3, "clamped"; "outside `[start,end]` opacity is 0"). -/
def clamp (lo hi v : ℚ) : ℚ := min (max v lo) hi

/-- Modelled from the spec: piecewise-linear interpolation over a list of
control points `(input, output)` (§4.3): the segment used is the first one whose
right end lies beyond `v`, or the last segment. -/
def interpolateSegments : List (ℚ × ℚ) → ℚ → ℚ
  | [], _ => 0
  | [(_, y)], _ => y
  | [(x0, y0), (x1, y1)], v => mix y0 y1 (progress x0 x1 v)
  | (x0, y0) :: (x1, y1) :: p2 :: rest, v =>
      if v < x1 then mix y0 y1 (progress x0 x1 v)
      else interpolateSegments ((x1, y1) :: p2 :: rest) v

/-- Modelled from the spec: `useTransform(value, input, output)` evaluated at
one scroll sample (§4.3): clamp the sample to the span of the control points,
then interpolate piecewise-linearly. -/
def useTransform (points : List (ℚ × ℚ)) (v : ℚ) : ℚ :=
  match points.head?, points.getLast? with
  | some (lo, _), some (hi, _) => interpolateSegments points (clamp lo hi v)
  | _, _ => 0

/-- Source: `features.length`; the `features` array literal has six entries. -/
def featuresLength : Nat := 6

/-- Source: `const start = i / features.length`. -/
def start (i : Nat) : ℚ := (i : ℚ) / (featuresLength : ℚ)

/-- Source: `const end = start + 1 / features.length`. -/
def end_ (i : Nat) : ℚ := start i + 1 / (featuresLength : ℚ)

/-- Source: `const opacity = useTransform(scrollYProgress,
[start, start + 0.08, end - 0.08, end], [0, 1, 1, 0])`. -/
def opacity (i : Nat) (p : ℚ) : ℚ :=
  useTransform [(start i, 0), (start i + 0.08, 1), (end_ i - 0.08, 1), (end_ i, 0)] p

/-! ## Autoplay timer -/

/-- Source: `const autoplayDelayMs = 6000`. -/
def autoplayDelayMs : Nat := 6000

/-- Modelled from the spec: the host timer facility is not in the sources.
An armed periodic timer (§4.4) is recorded by its handle, the time in ms at
which it was armed, and its period. -/
structure Interval where
  handle : Nat
  armedAt : Nat
  period : Nat
deriving DecidableEq

/-- Modelled from the spec: a periodic timer armed at time `a` with period `d`
ticks at `a + d`, `a + 2 d`, ... (§4.4, "single periodic timer (fixed 6000 ms
interval)"). -/
def Interval.firesAt (iv : Interval) (t : Nat) : Bool :=
  decide (iv.armedAt < t) && (t - iv.armedAt) % iv.period == 0

/-- The mounted component: the carousel state, `autoplayRef.current`, the
intervals currently armed with the host, and the next fresh timer handle. -/
structure Mounted where
  carousel : CarouselState
  autoplayRef : Option Nat
  armed : List Interval
  nextHandle : Nat

/-- Modelled from the spec: `clearInterval(h)` cancels the timer with handle
`h` (§5, "old timer must be cleared"). -/
def clearInterval (h : Nat) (m : Mounted) : Mounted :=
  ⟨m.carousel, m.autoplayRef, m.armed.filter (fun iv => iv.handle != h), m.nextHandle⟩

/-- Modelled from the spec: `setInterval(cb, d)` called at time `now` arms a
new periodic timer and returns its fresh handle (§4.4). -/
def setInterval (d now : Nat) (m : Mounted) : Nat × Mounted :=
  (m.nextHandle,
    ⟨m.carousel, m.autoplayRef, m.armed ++ [⟨m.nextHandle, now, d⟩], m.nextHandle + 1⟩)

/-- Source: body of the autoplay `useEffect`, run at time `now`:
`if (autoplayRef.current) clearInterval(autoplayRef.current);
autoplayRef.current = setInterval(..., autoplayDelayMs);`. -/
def autoplayEffect (now : Nat) (m : Mounted) : Mounted :=
  let m1 := match m.autoplayRef with
    | some h => clearInterval h m
    | none => m
  let r := setInterval autoplayDelayMs now m1
  ⟨r.2.carousel, some r.1, r.2.armed, r.2.nextHandle⟩

/-- Source: cleanup of the autoplay `useEffect`:
`return () => clearInterval(autoplayRef.current)`. -/
def autoplayCleanup (m : Mounted) : Mounted :=
  match m.autoplayRef with
  | some h => clearInterval h m
  | none => m

/-- The component on mount at time `now`: initial state, no timer, then the
first run of the autoplay effect. -/
def mount (now : Nat) : Mounted :=
  autoplayEffect now ⟨initialState, none, [], 1⟩

/-- A handler has produced carousel state `c` at time `now`. When the React
state (`currentIndex`, `direction`) differs from the rendered one, the component
re-renders and the autoplay effect, whose dependencies are
`[currentIndex, paginate]`, is cleaned up and run again; a change of the ref
alone does not re-render. -/
def commit (now : Nat) (c : CarouselState) (m : Mounted) : Mounted :=
  if c.currentIndex ≠ m.carousel.currentIndex ∨ c.direction ≠ m.carousel.direction then
    autoplayEffect now (autoplayCleanup ⟨c, m.autoplayRef, m.armed, m.nextHandle⟩)
  else ⟨c, m.autoplayRef, m.armed, m.nextHandle⟩

/-- An operation delivered at time `now`. A user operation runs its handler;
`Op.tick` stands for the host clock reaching `now`: the callback runs only
when an armed interval fires at that time. -/
def stepAt (itemCount : Nat) (m : Mounted) (ev : Nat × Op) : Mounted :=
  match ev.2 with
  | .tick =>
      if m.armed.any (fun iv => iv.firesAt ev.1) then
        commit ev.1 (autoplayTick itemCount m.carousel) m
      else m
  | op => commit ev.1 (op.apply itemCount m.carousel) m

/-- The timed operations delivered in order to the component mounted at `t0`. -/
def runTimed (itemCount : Nat) (t0 : Nat) (evs : List (Nat × Op)) : Mounted :=
  evs.foldl (stepAt itemCount) (mount t0)

/-- Exactly one interval is armed, it has the autoplay period, and
`autoplayRef.current` holds its handle. -/
def SingleArmed (m : Mounted) : Prop :=
  ∃ h a : Nat, m.armed = [⟨h, a, autoplayDelayMs⟩] ∧ m.autoplayRef = some h

/-- The scenario of the timer-restart property: six items, mounted at time 0,
one arrow click in direction `dir` at time 1000 ms. -/
def arrowClickAt1000 (dir : String) : Mounted :=
  runTimed 6 0 [(1000, Op.arrowClick dir)]

/-! ## Arithmetic of `wrapIndex` -/

theorem wrapIndex_eq_emod (N : Nat) (hN : 1 ≤ N) (i : Int) :
    wrapIndex N i = i % (N : Int) := by
  unfold wrapIndex jsRem
  have hNpos : (0 : Int) < (N : Int) := by omega
  rcases Int.lt_or_le i 0 with hneg | hnn
  · have h1 : Int.tmod i N = -(Int.tmod (-i) N) := by
      rw [Int.tmod_def, Int.tmod_def, Int.neg_tdiv]; ring
    have h2 : Int.tmod (-i) N = (-i) % (N : Int) :=
      Int.tmod_eq_emod (by omega) (by omega)
    have h3 : 0 ≤ (-i) % (N : Int) := Int.emod_nonneg _ (by omega)
    have h4 : (-i) % (N : Int) < N := Int.emod_lt_of_pos _ hNpos
    rw [h1, h2, Int.tmod_eq_emod (by omega) (by omega)]
    have hr : (-i) % (N : Int) = -i - (N : Int) * ((-i) / (N : Int)) := Int.emod_def _ _
    have hs : -((-i) % (N : Int)) + (N : Int) = i + (N : Int) * ((-i) / (N : Int) + 1) := by
      rw [hr]; ring
    rw [hs, Int.add_mul_emod_self_left]
  · rw [Int.tmod_eq_emod hnn (by omega)]
    have h3 : 0 ≤ i % (N : Int) := Int.emod_nonneg _ (by omega)
    rw [Int.tmod_eq_emod (by omega) (by omega), Int.add_emod_self, Int.emod_emod]

theorem wrapIndex_range (N : Nat) (hN : 1 ≤ N) (i : Int) :
    0 ≤ wrapIndex N i ∧ wrapIndex N i < N := by
  rw [wrapIndex_eq_emod N hN i]
  exact ⟨Int.emod_nonneg _ (by omega), Int.emod_lt_of_pos _ (by omega)⟩

theorem wrapIndex_of_inRange (N : Nat) (i : Int) (h0 : 0 ≤ i) (h1 : i < N) :
    wrapIndex N i = i := by
  rw [wrapIndex_eq_emod N (by omega) i]
  exact Int.emod_eq_of_lt h0 h1

theorem paginate_currentIndex (N : Nat) (i dir : Int) (s : CarouselState) :
    (paginate N i dir s).currentIndex = wrapIndex N i := rfl

theorem navCall_currentIndex (N : Nat) (k : Int) (s : CarouselState) (c : NavCall) :
    (c.apply N k s).currentIndex = wrapIndex N (k + c.delta) := by
  cases c
  · rfl
  · show wrapIndex N (k - 1) = wrapIndex N (k + -1)
    rw [Int.sub_eq_add_neg]

theorem runCalls_currentIndex (N : Nat) (hN : 1 ≤ N) (calls : List NavCall) :
    ∀ s : CarouselState, 0 ≤ s.currentIndex → s.currentIndex < N →
      (runCalls N calls s).currentIndex = (s.currentIndex + netDelta calls) % (N : Int) := by
  induction calls with
  | nil =>
    intro s h0 h1
    simp [runCalls, netDelta, Int.emod_eq_of_lt h0 h1]
  | cons c rest ih =>
    intro s h0 h1
    have hstep : (c.apply N s.currentIndex s).currentIndex
        = (s.currentIndex + c.delta) % (N : Int) := by
      rw [navCall_currentIndex, wrapIndex_eq_emod N hN]
    have hr := wrapIndex_range N hN (s.currentIndex + c.delta)
    rw [← navCall_currentIndex N s.currentIndex s c] at hr
    have := ih (c.apply N s.currentIndex s) hr.1 hr.2
    simp only [runCalls, List.foldl_cons] at this ⊢
    rw [this, hstep, Int.emod_add_emod]
    simp [netDelta, Int.add_assoc]

theorem op_apply_inRange (N : Nat) (hN : 1 ≤ N) (s : CarouselState) (op : Op)
    (h0 : 0 ≤ s.currentIndex) (h1 : s.currentIndex < N) :
    0 ≤ (op.apply N s).currentIndex ∧ (op.apply N s).currentIndex < N := by
  cases op with
  | dragRequest k which =>
    simp only [Op.apply, handleDragRequest]
    split <;> exact wrapIndex_range N hN _
  | dragEnd k o v =>
    simp only [Op.apply, onDragEnd]
    split
    · simp only [handleDragRequest]
      split <;> exact wrapIndex_range N hN _
    · exact ⟨h0, h1⟩
  | arrowClick dir =>
    simp only [Op.apply, handleArrowClick]
    split <;> exact wrapIndex_range N hN _
  | dotClick idx => exact wrapIndex_range N hN _
  | tick =>
    simp only [Op.apply, autoplayTick]
    split
    · exact wrapIndex_range N hN _
    · exact ⟨h0, h1⟩

theorem runOps_inRange (N : Nat) (hN : 1 ≤ N) (ops : List Op) :
    ∀ s : CarouselState, 0 ≤ s.currentIndex → s.currentIndex < N →
      0 ≤ (runOps N ops s).currentIndex ∧ (runOps N ops s).currentIndex < N := by
  induction ops with
  | nil => intro s h0 h1; exact ⟨h0, h1⟩
  | cons op rest ih =>
    intro s h0 h1
    have hr := op_apply_inRange N hN s op h0 h1
    exact ih (op.apply N s) hr.1 hr.2

theorem runClosureCalls_inRange (N : Nat) (hN : 1 ≤ N) (cs : List (Int × NavCall)) :
    ∀ s : CarouselState, 0 ≤ s.currentIndex → s.currentIndex < N →
      0 ≤ (runClosureCalls N cs s).currentIndex ∧ (runClosureCalls N cs s).currentIndex < N := by
  induction cs with
  | nil => intro s h0 h1; exact ⟨h0, h1⟩
  | cons c rest ih =>
    intro s _ _
    have hr := wrapIndex_range N hN (c.1 + c.2.delta)
    rw [← navCall_currentIndex N c.1 s c.2] at hr
    exact ih (c.2.apply N c.1 s) hr.1 hr.2

theorem runClosureCalls_last (N : Nat) (cs : List (Int × NavCall)) (k : Int) (c : NavCall)
    (s : CarouselState) :
    (runClosureCalls N (cs ++ [(k, c)]) s).currentIndex = wrapIndex N (k + c.delta) := by
  simp only [runClosureCalls, List.foldl_append, List.foldl_cons, List.foldl_nil]
  exact navCall_currentIndex N k _ c

theorem handleDragRequest_next (N : Nat) (k : Int) (s : CarouselState) :
    handleDragRequest N k "next" s = ⟨wrapIndex N (k + 1), 1, true⟩ := by
  simp [handleDragRequest, next, paginate, markInteracted]

theorem handleDragRequest_prev (N : Nat) (k : Int) (s : CarouselState) :
    handleDragRequest N k "prev" s = ⟨wrapIndex N (k - 1), -1, true⟩ := by
  simp [handleDragRequest, prev, paginate, markInteracted]

theorem handleDragRequest_currentIndex (N : Nat) (k : Int) (w : String) (s : CarouselState) :
    (handleDragRequest N k w s).currentIndex = wrapIndex N (k + 1) ∨
      (handleDragRequest N k w s).currentIndex = wrapIndex N (k - 1) := by
  unfold handleDragRequest
  split
  · exact Or.inl rfl
  · exact Or.inr rfl

theorem handleDragEnd_of_offset_lt (o v : ℚ) (h : o < -80) : handleDragEnd o v = some "next" := by
  unfold handleDragEnd
  rw [if_pos (Or.inl h)]

theorem onDragEnd_swipe_left (N : Nat) (k : Int) (o v : ℚ) (h : o < -80) (s : CarouselState) :
    onDragEnd N k o v s = ⟨wrapIndex N (k + 1), 1, true⟩ := by
  unfold onDragEnd
  rw [handleDragEnd_of_offset_lt o v h]
  exact handleDragRequest_next N k s

/-! ## Interpolation over four control points -/

theorem useTransform_four (x0 x1 x2 x3 y0 y1 y2 y3 v : ℚ) :
    useTransform [(x0, y0), (x1, y1), (x2, y2), (x3, y3)] v =
      if clamp x0 x3 v < x1 then mix y0 y1 (progress x0 x1 (clamp x0 x3 v))
      else if clamp x0 x3 v < x2 then mix y1 y2 (progress x1 x2 (clamp x0 x3 v))
      else mix y2 y3 (progress x2 x3 (clamp x0 x3 v)) := by
  simp [useTransform, interpolateSegments]

theorem clamp_of_le_lo (lo hi v : ℚ) (h : lo ≤ hi) (hv : v ≤ lo) : clamp lo hi v = lo := by
  unfold clamp
  rw [max_eq_right hv, min_eq_left h]

theorem clamp_of_hi_le (lo hi v : ℚ) (h : lo ≤ hi) (hv : hi ≤ v) : clamp lo hi v = hi := by
  unfold clamp
  rw [max_eq_left (le_trans h hv), min_eq_right hv]

theorem clamp_of_mem (lo hi v : ℚ) (h0 : lo ≤ v) (h1 : v ≤ hi) : clamp lo hi v = v := by
  unfold clamp
  rw [max_eq_left h0, min_eq_left h1]

theorem useTransform_four_below (a b c d y0 y1 y2 y3 v : ℚ)
    (hab : a < b) (hbc : b < c) (hcd : c < d) (hv : v ≤ a) :
    useTransform [(a, y0), (b, y1), (c, y2), (d, y3)] v = y0 := by
  rw [useTransform_four, clamp_of_le_lo a d v (by linarith) hv, if_pos hab]
  have hne : b - a ≠ 0 := by intro h; linarith
  simp [mix, progress, hne]

theorem useTransform_four_above (a b c d y0 y1 y2 y3 v : ℚ)
    (hab : a < b) (hbc : b < c) (hcd : c < d) (hv : d ≤ v) :
    useTransform [(a, y0), (b, y1), (c, y2), (d, y3)] v = y3 := by
  rw [useTransform_four, clamp_of_hi_le a d v (by linarith) hv,
    if_neg (by linarith), if_neg (by linarith)]
  have hne : d - c ≠ 0 := by intro h; linarith
  simp [mix, progress, hne]

theorem useTransform_four_second (a b c d y0 y1 y2 y3 : ℚ)
    (hab : a < b) (hbc : b < c) (hcd : c < d) :
    useTransform [(a, y0), (b, y1), (c, y2), (d, y3)] b = y1 := by
  rw [useTransform_four, clamp_of_mem a d b (by linarith) (by linarith),
    if_neg (lt_irrefl b), if_pos hbc]
  have hne : c - b ≠ 0 := by intro h; linarith
  simp [mix, progress, hne]

theorem useTransform_four_third (a b c d y0 y1 y2 y3 : ℚ)
    (hab : a < b) (hbc : b < c) (hcd : c < d) :
    useTransform [(a, y0), (b, y1), (c, y2), (d, y3)] c = y2 := by
  rw [useTransform_four, clamp_of_mem a d c (by linarith) (by linarith),
    if_neg (by linarith), if_neg (lt_irrefl c)]
  have hne : d - c ≠ 0 := by intro h; linarith
  simp [mix, progress, hne]

theorem window_order (i : Nat) :
    start i < start i + 0.08 ∧ start i + 0.08 < end_ i - 0.08 ∧ end_ i - 0.08 < end_ i := by
  unfold end_ featuresLength
  refine ⟨?_, ?_, ?_⟩ <;> norm_num
  linarith

theorem end_eq_start_succ (i : Nat) : end_ i = start (i + 1) := by
  unfold end_ start featuresLength
  push_cast
  ring

/-! ## The autoplay effect keeps a single interval -/

theorem autoplayCleanup_of_singleArmed (m : Mounted) (hm : SingleArmed m) :
    autoplayCleanup m = ⟨m.carousel, m.autoplayRef, [], m.nextHandle⟩ := by
  obtain ⟨h, a, harm, href⟩ := hm
  simp [autoplayCleanup, href, clearInterval, harm]

theorem autoplayEffect_after_cleanup (now : Nat) (c : CarouselState) (r : Option Nat)
    (n : Nat) :
    autoplayEffect now ⟨c, r, [], n⟩ = ⟨c, some n, [⟨n, now, autoplayDelayMs⟩], n + 1⟩ := by
  cases r <;> simp [autoplayEffect, clearInterval, setInterval]

theorem commit_of_changed (now : Nat) (c : CarouselState) (m : Mounted) (hm : SingleArmed m)
    (hc : c.currentIndex ≠ m.carousel.currentIndex ∨ c.direction ≠ m.carousel.direction) :
    commit now c m
      = ⟨c, some m.nextHandle, [⟨m.nextHandle, now, autoplayDelayMs⟩], m.nextHandle + 1⟩ := by
  have hs : SingleArmed ⟨c, m.autoplayRef, m.armed, m.nextHandle⟩ := hm
  unfold commit
  rw [if_pos hc, autoplayCleanup_of_singleArmed _ hs, autoplayEffect_after_cleanup]

theorem commit_of_unchanged (now : Nat) (c : CarouselState) (m : Mounted)
    (hc : ¬ (c.currentIndex ≠ m.carousel.currentIndex ∨ c.direction ≠ m.carousel.direction)) :
    commit now c m = ⟨c, m.autoplayRef, m.armed, m.nextHandle⟩ := by
  unfold commit
  rw [if_neg hc]

theorem commit_singleArmed (now : Nat) (c : CarouselState) (m : Mounted) (hm : SingleArmed m) :
    SingleArmed (commit now c m) := by
  by_cases hc : c.currentIndex ≠ m.carousel.currentIndex ∨ c.direction ≠ m.carousel.direction
  · rw [commit_of_changed now c m hm hc]
    exact ⟨m.nextHandle, now, rfl, rfl⟩
  · rw [commit_of_unchanged now c m hc]
    exact hm

theorem commit_carousel (now : Nat) (c : CarouselState) (m : Mounted) (hm : SingleArmed m) :
    (commit now c m).carousel = c := by
  by_cases hc : c.currentIndex ≠ m.carousel.currentIndex ∨ c.direction ≠ m.carousel.direction
  · rw [commit_of_changed now c m hm hc]
  · rw [commit_of_unchanged now c m hc]

theorem mount_eq (now : Nat) :
    mount now = ⟨initialState, some 1, [⟨1, now, autoplayDelayMs⟩], 2⟩ :=
  autoplayEffect_after_cleanup now initialState none 1

theorem stepAt_singleArmed (N : Nat) (m : Mounted) (ev : Nat × Op) (hm : SingleArmed m) :
    SingleArmed (stepAt N m ev) := by
  obtain ⟨t, op⟩ := ev
  cases op with
  | tick =>
    simp only [stepAt]
    split
    · exact commit_singleArmed _ _ _ hm
    · exact hm
  | dragRequest k w => exact commit_singleArmed _ _ _ hm
  | dragEnd k o v => exact commit_singleArmed _ _ _ hm
  | arrowClick d => exact commit_singleArmed _ _ _ hm
  | dotClick i => exact commit_singleArmed _ _ _ hm

theorem foldl_stepAt_singleArmed (N : Nat) (evs : List (Nat × Op)) :
    ∀ m : Mounted, SingleArmed m → SingleArmed (evs.foldl (stepAt N) m) := by
  induction evs with
  | nil => intro m hm; exact hm
  | cons ev rest ih => intro m hm; exact ih _ (stepAt_singleArmed N m ev hm)

theorem runTimed_singleArmed (N t0 : Nat) (evs : List (Nat × Op)) :
    SingleArmed (runTimed N t0 evs) := by
  apply foldl_stepAt_singleArmed
  rw [mount_eq]
  exact ⟨1, t0, rfl, rfl⟩

theorem stepAt_rearms (N : Nat) (m : Mounted) (t : Nat) (op : Op) (hm : SingleArmed m)
    (hc : (stepAt N m (t, op)).carousel.currentIndex ≠ m.carousel.currentIndex) :
    (stepAt N m (t, op)).armed = [⟨m.nextHandle, t, autoplayDelayMs⟩] ∧
      (stepAt N m (t, op)).autoplayRef = some m.nextHandle := by
  have key : ∀ c : CarouselState, (commit t c m).carousel.currentIndex ≠ m.carousel.currentIndex →
      (commit t c m).armed = [⟨m.nextHandle, t, autoplayDelayMs⟩] ∧
        (commit t c m).autoplayRef = some m.nextHandle := by
    intro c hne
    rw [commit_carousel t c m hm] at hne
    rw [commit_of_changed t c m hm (Or.inl hne)]
    exact ⟨rfl, rfl⟩
  cases op with
  | tick =>
    simp only [stepAt] at hc ⊢
    split
    · rename_i hf
      rw [if_pos hf] at hc
      exact key _ hc
    · rename_i hf
      rw [if_neg hf] at hc
      exact absurd rfl hc
  | dragRequest k w => exact key _ hc
  | dragEnd k o v => exact key _ hc
  | arrowClick d => exact key _ hc
  | dotClick i => exact key _ hc

theorem arrowClickAt1000_eq (dir : String) :
    ∃ c : CarouselState, c.userInteracted = true ∧
      arrowClickAt1000 dir = ⟨c, some 2, [⟨2, 1000, autoplayDelayMs⟩], 3⟩ := by
  have hrun : arrowClickAt1000 dir
      = commit 1000 (handleArrowClick 6 dir initialState) (mount 0) := rfl
  have hsingle : SingleArmed (mount 0) := runTimed_singleArmed 6 0 []
  have hchg : (handleArrowClick 6 dir initialState).currentIndex ≠ (mount 0).carousel.currentIndex := by
    rw [mount_eq]
    unfold handleArrowClick
    split <;> decide
  have hflag : (handleArrowClick 6 dir initialState).userInteracted = true := by
    unfold handleArrowClick
    split <;> rfl
  refine ⟨handleArrowClick 6 dir initialState, hflag, ?_⟩
  rw [hrun, commit_of_changed 1000 _ (mount 0) hsingle (Or.inl hchg), mount_eq]

theorem firesAt_armed1000 (t : Nat) :
    Interval.firesAt ⟨2, 1000, autoplayDelayMs⟩ t = true ↔
      1000 < t ∧ (t - 1000) % 6000 = 0 := by
  simp [Interval.firesAt, autoplayDelayMs]

/-! ## Shape of the opacity curve -/

theorem useTransform_rise (a b c d v : ℚ) (hab : a < b) (hbd : b < d)
    (h0 : a ≤ v) (h1 : v < b) :
    useTransform [(a, 0), (b, 1), (c, 1), (d, 0)] v = (v - a) / (b - a) := by
  rw [useTransform_four, clamp_of_mem a d v h0 (by linarith), if_pos h1]
  have hne : b - a ≠ 0 := by intro h; linarith
  simp [mix, progress, hne]

theorem useTransform_plateau (a b c d v : ℚ) (hab : a < b) (_hbc : b < c) (hcd : c < d)
    (h0 : b ≤ v) (h1 : v < c) :
    useTransform [(a, 0), (b, 1), (c, 1), (d, 0)] v = 1 := by
  rw [useTransform_four, clamp_of_mem a d v (by linarith) (by linarith),
    if_neg (not_lt.2 h0), if_pos h1]
  simp [mix]

theorem useTransform_fall (a b c d v : ℚ) (hab : a < b) (hbc : b < c) (hcd : c < d)
    (h0 : c ≤ v) (h1 : v ≤ d) :
    useTransform [(a, 0), (b, 1), (c, 1), (d, 0)] v = (d - v) / (d - c) := by
  rw [useTransform_four, clamp_of_mem a d v (by linarith) h1,
    if_neg (by linarith), if_neg (not_lt.2 h0)]
  have hne : d - c ≠ 0 := by intro h; linarith
  simp only [mix, progress, if_neg hne]
  field_simp

theorem opacity_rise (i : Nat) (p : ℚ) (h0 : start i ≤ p) (h1 : p < start i + 0.08) :
    opacity i p = (p - start i) / 0.08 := by
  obtain ⟨k1, k2, k3⟩ := window_order i
  unfold opacity
  rw [useTransform_rise _ _ _ _ p k1 (lt_trans k2 k3) h0 h1]
  congr 1
  ring

theorem opacity_plateau (i : Nat) (p : ℚ) (h0 : start i + 0.08 ≤ p) (h1 : p < end_ i - 0.08) :
    opacity i p = 1 := by
  obtain ⟨k1, k2, k3⟩ := window_order i
  exact useTransform_plateau _ _ _ _ p k1 k2 k3 h0 h1

theorem opacity_fall (i : Nat) (p : ℚ) (h0 : end_ i - 0.08 ≤ p) (h1 : p ≤ end_ i) :
    opacity i p = (end_ i - p) / 0.08 := by
  obtain ⟨k1, k2, k3⟩ := window_order i
  unfold opacity
  rw [useTransform_fall _ _ _ _ p k1 k2 k3 h0 h1]
  congr 1
  ring

theorem opacity_below (i : Nat) (p : ℚ) (h : p ≤ start i) : opacity i p = 0 := by
  obtain ⟨k1, k2, k3⟩ := window_order i
  exact useTransform_four_below _ _ _ _ _ _ _ _ p k1 k2 k3 h

theorem opacity_above (i : Nat) (p : ℚ) (h : end_ i ≤ p) : opacity i p = 0 := by
  obtain ⟨k1, k2, k3⟩ := window_order i
  exact useTransform_four_above _ _ _ _ _ _ _ _ p k1 k2 k3 h

theorem opacity_pos_iff (i : Nat) (p : ℚ) :
    0 < opacity i p ↔ start i < p ∧ p < end_ i := by
  obtain ⟨k1, k2, k3⟩ := window_order i
  have h8 : (0 : ℚ) < 0.08 := by norm_num
  constructor
  · intro hpos
    refine ⟨?_, ?_⟩
    · by_contra hle
      rw [opacity_below i p (not_lt.1 hle)] at hpos
      exact lt_irrefl _ hpos
    · by_contra hle
      rw [opacity_above i p (not_lt.1 hle)] at hpos
      exact lt_irrefl _ hpos
  · rintro ⟨hs, he⟩
    rcases lt_or_le p (start i + 0.08) with h1 | h1
    · rw [opacity_rise i p (le_of_lt hs) h1]
      exact div_pos (by linarith) h8
    · rcases lt_or_le p (end_ i - 0.08) with h2 | h2
      · rw [opacity_plateau i p h1 h2]
        exact one_pos
      · rw [opacity_fall i p h2 (le_of_lt he)]
        exact div_pos (by linarith) h8

theorem opacity_eq_one_iff (i : Nat) (p : ℚ) :
    opacity i p = 1 ↔ start i + 0.08 ≤ p ∧ p ≤ end_ i - 0.08 := by
  obtain ⟨k1, k2, k3⟩ := window_order i
  have h8 : (0 : ℚ) < 0.08 := by norm_num
  have h8ne : (0.08 : ℚ) ≠ 0 := ne_of_gt h8
  constructor
  · intro hone
    have hpos : 0 < opacity i p := by rw [hone]; exact one_pos
    obtain ⟨hs, he⟩ := (opacity_pos_iff i p).1 hpos
    refine ⟨?_, ?_⟩
    · by_contra hlt
      rw [opacity_rise i p (le_of_lt hs) (not_le.1 hlt), div_eq_one_iff_eq h8ne] at hone
      exact hlt (by linarith)
    · by_contra hlt
      rw [opacity_fall i p (le_of_lt (not_le.1 hlt)) (le_of_lt he),
        div_eq_one_iff_eq h8ne] at hone
      exact hlt (by linarith)
  · rintro ⟨h1, h2⟩
    rcases lt_or_eq_of_le h2 with h2 | h2
    · exact opacity_plateau i p h1 h2
    · rw [opacity_fall i p (le_of_eq h2.symm) (by linarith), h2]
      rw [div_eq_one_iff_eq h8ne]
      ring

theorem window_disjoint (i j : Nat) (hij : i < j) : end_ i ≤ start j := by
  rw [end_eq_start_succ i]
  unfold start featuresLength
  have h : ((i + 1 : Nat) : ℚ) ≤ (j : ℚ) := by exact_mod_cast hij
  exact div_le_div_of_nonneg_right h (by norm_num)

/-! ## The claims -/

/-- C1, counterexample: six items, two `next` calls both made through the
closure of the first render, which captured index 0 (two drags released on
the same card): the advance-minus-retreat count is 2, the resulting index is 1
and not `((2 % 6) + 6) % 6 = 2`. -/
theorem wrap_correctness_counterexample :
    netDelta [NavCall.next, NavCall.next] = 2 ∧
    (runClosureCalls 6 [(0, NavCall.next), (0, NavCall.next)] initialState).currentIndex = 1 ∧
    (runClosureCalls 6 [(0, NavCall.next), (0, NavCall.next)] initialState).currentIndex
      ≠ jsRem (jsRem (netDelta [NavCall.next, NavCall.next]) (6 : Nat) + (6 : Nat)) (6 : Nat) ∧
    runOps 6 [Op.dragRequest 0 "next", Op.dragRequest 0 "next"] initialState
      = ⟨1, 1, true⟩ := by
  decide

/-- C1, amended: for every item count `N ≥ 1` and every finite sequence of
`next` / `prev` calls applied from the initial index 0, each made through the
closure of the latest committed render, the resulting `currentIndex` equals
`((d % N) + N) % N` with the JavaScript remainder, where `d` is the number of
advances minus the number of retreats. For calls made through closures of any
renders the resulting index lies in `[0, N)`, and after a call whose closure
captured index `k` it is `wrapIndex (k + 1)` for `next` and `wrapIndex (k - 1)`
for `prev`. -/
theorem wrap_correctness_latest_render (N : Nat) (hN : 1 ≤ N) (calls : List NavCall) :
    (runCalls N calls initialState).currentIndex
        = jsRem (jsRem (netDelta calls) N + N) N ∧
      0 ≤ (runCalls N calls initialState).currentIndex ∧
      (runCalls N calls initialState).currentIndex < N ∧
      (∀ cs : List (Int × NavCall),
        0 ≤ (runClosureCalls N cs initialState).currentIndex ∧
        (runClosureCalls N cs initialState).currentIndex < N) ∧
      (∀ (cs : List (Int × NavCall)) (k : Int) (c : NavCall),
        (runClosureCalls N (cs ++ [(k, c)]) initialState).currentIndex
          = wrapIndex N (k + c.delta)) := by
  have h := runCalls_currentIndex N hN calls initialState (le_refl _)
    (by show (0 : Int) < N; omega)
  have hw : jsRem (jsRem (netDelta calls) N + N) N = wrapIndex N (netDelta calls) := rfl
  have he : (runCalls N calls initialState).currentIndex = wrapIndex N (netDelta calls) := by
    rw [h, wrapIndex_eq_emod N hN]
    simp [initialState]
  rw [hw, he]
  refine ⟨rfl, (wrapIndex_range N hN _).1, (wrapIndex_range N hN _).2, ?_, ?_⟩
  · intro cs
    exact runClosureCalls_inRange N hN cs initialState (le_refl _)
      (by show (0 : Int) < N; omega)
  · intro cs k c
    exact runClosureCalls_last N cs k c initialState

/-- Witness for C1 amended: six items, calls `prev, prev, next` from index 0,
each through the latest render, end at index 5. -/
theorem wrap_correctness_latest_render_witness :
    1 ≤ 6 ∧
      (runCalls 6 [NavCall.prev, NavCall.prev, NavCall.next] initialState).currentIndex
          = jsRem (jsRem (netDelta [NavCall.prev, NavCall.prev, NavCall.next]) (6 : Nat)
              + (6 : Nat)) (6 : Nat) ∧
      (runCalls 6 [NavCall.prev, NavCall.prev, NavCall.next] initialState).currentIndex = 5 :=
  ⟨by decide,
    (wrap_correctness_latest_render 6 (by decide)
      [NavCall.prev, NavCall.prev, NavCall.next]).1,
    by decide⟩

/-- C2 (gesture interpretation): `handleDragEnd` requests "next" exactly when
`offsetX < -80` or `velocityX < -500`; otherwise it requests "prev" exactly when
`offsetX > 80` or `velocityX > 500`; otherwise it makes no request. The samples
`(-81, 0)`, `(81, 0)`, `(0, 0)`, `(0, -600)` give next, prev, none, next, and a
sample meeting both an advance and a retreat condition gives next. -/
theorem gesture_interpretation :
    (∀ o v : ℚ, handleDragEnd o v = some "next" ↔ (o < -80 ∨ v < -500)) ∧
    (∀ o v : ℚ, handleDragEnd o v = some "prev" ↔
      (¬ (o < -80 ∨ v < -500) ∧ (o > 80 ∨ v > 500))) ∧
    (∀ o v : ℚ, handleDragEnd o v = none ↔
      (¬ (o < -80 ∨ v < -500) ∧ ¬ (o > 80 ∨ v > 500))) ∧
    handleDragEnd (-81) 0 = some "next" ∧
    handleDragEnd 81 0 = some "prev" ∧
    handleDragEnd 0 0 = none ∧
    handleDragEnd 0 (-600) = some "next" ∧
    handleDragEnd (-81) 600 = some "next" ∧
    handleDragEnd 81 (-600) = some "next" := by
  refine ⟨?_, ?_, ?_, ?_, ?_, ?_, ?_, ?_, ?_⟩
  · intro o v
    unfold handleDragEnd
    by_cases h1 : o < -80 ∨ v < -500
    · simp [h1]
    · by_cases h2 : o > 80 ∨ v > 500
      · rw [if_neg h1, if_pos h2]; simp [h1]
      · rw [if_neg h1, if_neg h2]; simp [h1]
  · intro o v
    unfold handleDragEnd
    by_cases h1 : o < -80 ∨ v < -500
    · rw [if_pos h1]; simp [h1]
    · by_cases h2 : o > 80 ∨ v > 500
      · rw [if_neg h1, if_pos h2]; simp [h1, h2]
      · rw [if_neg h1, if_neg h2]; simp [h2]
  · intro o v
    unfold handleDragEnd
    by_cases h1 : o < -80 ∨ v < -500
    · rw [if_pos h1]; simp [h1]
    · by_cases h2 : o > 80 ∨ v > 500
      · rw [if_neg h1, if_pos h2]; simp [h2]
      · rw [if_neg h1, if_neg h2]; simp [h1, h2]
  all_goals (unfold handleDragEnd; norm_num)

/-- C3 (suppress flag is one-shot): for every `N ≥ 1` and every state whose
user-interacted flag is true, one autoplay tick leaves `currentIndex` and
`direction` unchanged and clears the flag; a second tick sets `currentIndex` to
`wrapIndex (currentIndex + 1)`, `direction` to forward and leaves the flag
false. Every drag request (whatever render its handler belongs to), arrow
click and dot click leaves the flag true. -/
theorem suppress_one_shot (N : Nat) (_hN : 1 ≤ N) (s : CarouselState)
    (hflag : s.userInteracted = true) :
    autoplayTick N s = ⟨s.currentIndex, s.direction, false⟩ ∧
    autoplayTick N (autoplayTick N s) = ⟨wrapIndex N (s.currentIndex + 1), 1, false⟩ ∧
    (∀ (t : CarouselState) (k : Int) (w : String),
      (handleDragRequest N k w t).userInteracted = true) ∧
    (∀ (t : CarouselState) (w : String), (handleArrowClick N w t).userInteracted = true) ∧
    (∀ (t : CarouselState) (i : Int), (dotClick N i t).userInteracted = true) := by
  have h1 : autoplayTick N s = ⟨s.currentIndex, s.direction, false⟩ := by
    simp [autoplayTick, hflag]
  refine ⟨h1, ?_, ?_, ?_, ?_⟩
  · rw [h1]; simp [autoplayTick, paginate]
  · intro t k w; unfold handleDragRequest; split <;> rfl
  · intro t w; unfold handleArrowClick; split <;> rfl
  · intro t i; rfl

/-- Witness for C3: six items, index 1 reached by a drag, flag set. -/
theorem suppress_one_shot_witness :
    autoplayTick 6 ⟨1, 1, true⟩ = ⟨1, 1, false⟩ ∧
    autoplayTick 6 (autoplayTick 6 ⟨1, 1, true⟩) = ⟨2, 1, false⟩ :=
  ⟨(suppress_one_shot 6 (by decide) ⟨1, 1, true⟩ rfl).1,
    (suppress_one_shot 6 (by decide) ⟨1, 1, true⟩ rfl).2.1.trans (by decide)⟩

/-- C4 (index invariant): for every `N ≥ 1`, in every state reachable from the
initial state by any finite sequence of public operations (drag request, drag
release, arrow click, dot click on any integer index, autoplay tick),
`0 ≤ currentIndex < N`. -/
theorem index_invariant (N : Nat) (hN : 1 ≤ N) (ops : List Op) :
    0 ≤ (runOps N ops initialState).currentIndex ∧
      (runOps N ops initialState).currentIndex < N :=
  runOps_inRange N hN ops initialState (le_refl _) (by show (0 : Int) < N; omega)

/-- Witness for C4: six items, a dot click on index 40, on index -3, a tick. -/
theorem index_invariant_witness :
    1 ≤ 6 ∧
      0 ≤ (runOps 6 [Op.dotClick 40, Op.dotClick (-3), Op.tick] initialState).currentIndex ∧
      (runOps 6 [Op.dotClick 40, Op.dotClick (-3), Op.tick] initialState).currentIndex
        < (6 : Nat) :=
  ⟨by decide, index_invariant 6 (by decide) [Op.dotClick 40, Op.dotClick (-3), Op.tick]⟩

/-- C5, counterexample: six items. The first drag release (offset -120) on the
card of the first render commits index 1. A second release on the same card,
still mounted while it leaves, runs the handler that captured index 0: at the
committed index 1 the "next" request yields index 1, not `wrapIndex (1 + 1) = 2`. -/
theorem user_navigation_counterexample :
    onDragEnd 6 0 (-120) 0 initialState = ⟨1, 1, true⟩ ∧
    onDragEnd 6 0 (-120) 0 ⟨1, 1, true⟩ = ⟨1, 1, true⟩ ∧
    handleDragRequest 6 0 "next" ⟨1, 1, true⟩ = ⟨1, 1, true⟩ ∧
    (handleDragRequest 6 0 "next" ⟨1, 1, true⟩).currentIndex ≠ wrapIndex 6 (1 + 1) := by
  have hw : wrapIndex 6 (0 + 1) = 1 := by decide
  refine ⟨?_, ?_, by decide, by decide⟩
  · rw [onDragEnd_swipe_left 6 0 (-120) 0 (by norm_num), hw]
  · rw [onDragEnd_swipe_left 6 0 (-120) 0 (by norm_num), hw]

/-- C5, amended: for every `N ≥ 1` and every state with `currentIndex = c` in
`[0, N)`, a drag request or arrow click of "next" made through the handler of
the render that shows `c` yields index `wrapIndex (c + 1)`, direction 1 and
flag true; "prev" yields index `wrapIndex (c - 1)`, direction -1 and flag true.
A drag request through the handler of a render whose index was `k` yields
`wrapIndex (k + 1)` or `wrapIndex (k - 1)` with the same direction and flag.
With six items at index 0 a drag released at `offsetX = -120` on the card of
that render gives index 1, direction 1, flag true. -/
theorem user_navigation_latest_render (N : Nat) (_hN : 1 ≤ N) (s : CarouselState)
    (_h0 : 0 ≤ s.currentIndex) (_h1 : s.currentIndex < N) :
    handleDragRequest N s.currentIndex "next" s = ⟨wrapIndex N (s.currentIndex + 1), 1, true⟩ ∧
    handleArrowClick N "next" s = ⟨wrapIndex N (s.currentIndex + 1), 1, true⟩ ∧
    handleDragRequest N s.currentIndex "prev" s = ⟨wrapIndex N (s.currentIndex - 1), -1, true⟩ ∧
    handleArrowClick N "prev" s = ⟨wrapIndex N (s.currentIndex - 1), -1, true⟩ ∧
    (∀ k : Int, handleDragRequest N k "next" s = ⟨wrapIndex N (k + 1), 1, true⟩) ∧
    (∀ k : Int, handleDragRequest N k "prev" s = ⟨wrapIndex N (k - 1), -1, true⟩) ∧
    (∀ (v : ℚ) (d : Int) (f : Bool), onDragEnd 6 0 (-120) v ⟨0, d, f⟩ = ⟨1, 1, true⟩) := by
  refine ⟨handleDragRequest_next N _ s, ?_, handleDragRequest_prev N _ s, ?_,
    fun k => handleDragRequest_next N k s, fun k => handleDragRequest_prev N k s, ?_⟩
  · simp [handleArrowClick, next, paginate, markInteracted]
  · simp [handleArrowClick, prev, paginate, markInteracted]
  · intro v d f
    have hw : wrapIndex 6 (0 + 1) = 1 := by decide
    rw [onDragEnd_swipe_left 6 0 (-120) v (by norm_num), hw]

/-- Witness for C5 amended: six items at index 5, where "next" through the
handler of that render wraps to 0. -/
theorem user_navigation_latest_render_witness :
    handleDragRequest 6 5 "next" ⟨5, -1, false⟩ = ⟨0, 1, true⟩ ∧
    handleArrowClick 6 "prev" ⟨0, 0, false⟩ = ⟨5, -1, true⟩ :=
  ⟨(user_navigation_latest_render 6 (by decide) ⟨5, -1, false⟩ (by decide) (by decide)).1.trans
      (by decide),
    (user_navigation_latest_render 6 (by decide) ⟨0, 0, false⟩ (by decide)
      (by decide)).2.2.2.1.trans (by decide)⟩

/-- C6, counterexample: with six items at index 0, a dot click on the
out-of-range target 7 moves the index to 1; it is not a no-op on the index. -/
theorem jumpTo_out_of_range_counterexample :
    ¬ (∀ (N : Nat) (s : CarouselState) (target : Int), 1 ≤ N →
        0 ≤ s.currentIndex → s.currentIndex < N → (target < 0 ∨ target ≥ N) →
        (dotClick N target s).currentIndex = s.currentIndex) := by
  intro h
  have h7 := h 6 initialState 7 (by decide) (by decide) (by decide) (by decide)
  exact absurd h7 (by decide)

/-- C6, amended: for every `N ≥ 1`, every state with `currentIndex` in `[0, N)`
and every integer target with `target < 0` or `target ≥ N`, the dot click sets
`currentIndex` to `wrapIndex target`, the Euclidean remainder of `target`
modulo `N`, which lies in `[0, N)`; the index is left unchanged exactly when
`N` divides `target - currentIndex`. -/
theorem jumpTo_out_of_range_wraps (N : Nat) (hN : 1 ≤ N) (s : CarouselState)
    (h0 : 0 ≤ s.currentIndex) (h1 : s.currentIndex < N) (target : Int)
    (_hout : target < 0 ∨ target ≥ N) :
    (dotClick N target s).currentIndex = wrapIndex N target ∧
    wrapIndex N target = target % (N : Int) ∧
    0 ≤ (dotClick N target s).currentIndex ∧
    (dotClick N target s).currentIndex < N ∧
    ((dotClick N target s).currentIndex = s.currentIndex ↔
      (N : Int) ∣ target - s.currentIndex) := by
  have hidx : (dotClick N target s).currentIndex = wrapIndex N target := rfl
  have hmod := wrapIndex_eq_emod N hN target
  have hr := wrapIndex_range N hN target
  refine ⟨hidx, hmod, by rw [hidx]; exact hr.1, by rw [hidx]; exact hr.2, ?_⟩
  rw [hidx, hmod]
  have hc : s.currentIndex % (N : Int) = s.currentIndex := Int.emod_eq_of_lt h0 h1
  constructor
  · intro h
    rw [← hc] at h
    exact Int.dvd_of_emod_eq_zero (Int.emod_eq_emod_iff_emod_sub_eq_zero.1 h)
  · intro h
    have := Int.emod_eq_emod_iff_emod_sub_eq_zero.2 (Int.emod_eq_zero_of_dvd h)
    rw [this, hc]

/-- Witness for C6 amended: six items at index 0, dot click on target 7. -/
theorem jumpTo_out_of_range_wraps_witness :
    (dotClick 6 7 initialState).currentIndex = wrapIndex 6 7 ∧ wrapIndex 6 7 = 1 :=
  ⟨(jumpTo_out_of_range_wraps 6 (by decide) initialState (by decide) (by decide) 7
      (Or.inr (by decide))).1, by decide⟩

/-- C7, counterexample: with six items at index 0, a dot click on the in-range
target 3 moves the index to 3, which is none of 0, `wrapIndex 1`, `wrapIndex (-1)`.
Likewise at index 3 a drag request through the handler of the render whose
index was 0 moves the index to 1, which is none of 3, 4, 2. -/
theorem single_step_counterexample :
    (0 ≤ (3 : Int) ∧ (3 : Int) < (6 : Nat)) ∧
    ¬ ((dotClick 6 3 initialState).currentIndex = initialState.currentIndex ∨
        (dotClick 6 3 initialState).currentIndex = wrapIndex 6 (initialState.currentIndex + 1) ∨
        (dotClick 6 3 initialState).currentIndex
          = wrapIndex 6 (initialState.currentIndex - 1)) ∧
    (handleDragRequest 6 0 "next" ⟨3, 1, true⟩).currentIndex = 1 ∧
    ¬ ((handleDragRequest 6 0 "next" ⟨3, 1, true⟩).currentIndex = 3 ∨
        (handleDragRequest 6 0 "next" ⟨3, 1, true⟩).currentIndex = wrapIndex 6 (3 + 1) ∨
        (handleDragRequest 6 0 "next" ⟨3, 1, true⟩).currentIndex = wrapIndex 6 (3 - 1)) := by
  decide

/-- C7, amended: for every `N ≥ 1` and every state with `currentIndex = c` in
`[0, N)`, each call of `next`, `prev`, a drag request, a drag release, an
arrow click or an autoplay tick made through a handler of the render that
shows `c` leaves the index at one of `c`, `wrapIndex (c + 1)`,
`wrapIndex (c - 1)`. A drag request or release through the handler of a render
whose index was `k` leaves the index at one of `c`, `wrapIndex (k + 1)`,
`wrapIndex (k - 1)`: one position from `k`. A dot click on an in-range target
`t` sets the index to `t` itself, whatever its distance from `c`. -/
theorem single_step_except_jump (N : Nat) (_hN : 1 ≤ N) (s : CarouselState)
    (_h0 : 0 ≤ s.currentIndex) (_h1 : s.currentIndex < N) :
    (∀ c : NavCall,
      (c.apply N s.currentIndex s).currentIndex = s.currentIndex ∨
      (c.apply N s.currentIndex s).currentIndex = wrapIndex N (s.currentIndex + 1) ∨
      (c.apply N s.currentIndex s).currentIndex = wrapIndex N (s.currentIndex - 1)) ∧
    (∀ op : Op, (∀ idx : Int, op ≠ Op.dotClick idx) → op.fromRender s.currentIndex →
      (op.apply N s).currentIndex = s.currentIndex ∨
      (op.apply N s).currentIndex = wrapIndex N (s.currentIndex + 1) ∨
      (op.apply N s).currentIndex = wrapIndex N (s.currentIndex - 1)) ∧
    (∀ (k : Int) (w : String),
      (handleDragRequest N k w s).currentIndex = wrapIndex N (k + 1) ∨
      (handleDragRequest N k w s).currentIndex = wrapIndex N (k - 1)) ∧
    (∀ (k : Int) (o v : ℚ),
      (onDragEnd N k o v s).currentIndex = s.currentIndex ∨
      (onDragEnd N k o v s).currentIndex = wrapIndex N (k + 1) ∨
      (onDragEnd N k o v s).currentIndex = wrapIndex N (k - 1)) ∧
    (∀ t : Int, 0 ≤ t → t < N → (dotClick N t s).currentIndex = t) := by
  have hend : ∀ (k : Int) (o v : ℚ),
      (onDragEnd N k o v s).currentIndex = s.currentIndex ∨
      (onDragEnd N k o v s).currentIndex = wrapIndex N (k + 1) ∨
      (onDragEnd N k o v s).currentIndex = wrapIndex N (k - 1) := by
    intro k o v
    simp only [onDragEnd]
    split
    · exact Or.inr (handleDragRequest_currentIndex N k _ s)
    · exact Or.inl rfl
  refine ⟨?_, ?_, fun k w => handleDragRequest_currentIndex N k w s, hend, ?_⟩
  · intro c
    cases c
    · exact Or.inr (Or.inl rfl)
    · exact Or.inr (Or.inr rfl)
  · intro op hop hfresh
    cases op with
    | dragRequest k w =>
      have hk : k = s.currentIndex := hfresh
      subst hk
      exact Or.inr (handleDragRequest_currentIndex N _ w s)
    | dragEnd k o v =>
      have hk : k = s.currentIndex := hfresh
      subst hk
      exact hend _ o v
    | arrowClick d =>
      simp only [Op.apply, handleArrowClick]
      split
      · exact Or.inr (Or.inl rfl)
      · exact Or.inr (Or.inr rfl)
    | dotClick idx => exact absurd rfl (hop idx)
    | tick =>
      simp only [Op.apply, autoplayTick]
      split
      · exact Or.inr (Or.inl rfl)
      · exact Or.inl rfl
  · intro t ht0 ht1
    exact wrapIndex_of_inRange N t ht0 ht1

/-- Witness for C7 amended: six items at index 0; a drag request "prev" on the
card of that render wraps to 5 or stays within one step, and a dot click on 3
lands on 3. -/
theorem single_step_except_jump_witness :
    (((Op.dragRequest 0 "prev").apply 6 initialState).currentIndex = initialState.currentIndex ∨
      ((Op.dragRequest 0 "prev").apply 6 initialState).currentIndex
        = wrapIndex 6 (initialState.currentIndex + 1) ∨
      ((Op.dragRequest 0 "prev").apply 6 initialState).currentIndex
        = wrapIndex 6 (initialState.currentIndex - 1)) ∧
    ((Op.dragRequest 0 "prev").apply 6 initialState).currentIndex = 5 ∧
    (dotClick 6 3 initialState).currentIndex = 3 :=
  have h := single_step_except_jump 6 (by decide) initialState (by decide) (by decide)
  ⟨h.2.1 (Op.dragRequest 0 "prev") (fun _ hne => Op.noConfusion hne) rfl,
    by decide, h.2.2.2.2 3 (by decide) (by decide)⟩

/-- C8 (opacity control points): for the six-item list and every item index
`i` in `0..5` with `s = i/6` and `e = s + 1/6` in exact rational arithmetic,
the item's opacity is 0 at `s`, 1 at `s + 0.08`, 1 at `e - 0.08`, 0 at `e`, and
0 for every `p` outside `[s, e]`; at each shared boundary `e_i = s_(i+1)` both
item `i` and item `i + 1` have opacity 0. -/
theorem opacity_control_points (i : Nat) (_hi : i < featuresLength) :
    start i = (i : ℚ) / 6 ∧ end_ i = start i + 1 / 6 ∧
    opacity i (start i) = 0 ∧
    opacity i (start i + 0.08) = 1 ∧
    opacity i (end_ i - 0.08) = 1 ∧
    opacity i (end_ i) = 0 ∧
    (∀ p : ℚ, p < start i ∨ end_ i < p → opacity i p = 0) ∧
    (i + 1 < featuresLength →
      end_ i = start (i + 1) ∧ opacity i (end_ i) = 0 ∧ opacity (i + 1) (end_ i) = 0) := by
  obtain ⟨h1, h2, h3⟩ := window_order i
  have hlo : ∀ j : Nat, ∀ p : ℚ, p ≤ start j → opacity j p = 0 := by
    intro j p hp
    obtain ⟨k1, k2, k3⟩ := window_order j
    exact useTransform_four_below _ _ _ _ _ _ _ _ p k1 k2 k3 hp
  have hhi : ∀ p : ℚ, end_ i ≤ p → opacity i p = 0 := by
    intro p hp
    exact useTransform_four_above _ _ _ _ _ _ _ _ p h1 h2 h3 hp
  refine ⟨?_, ?_, hlo i _ (le_refl _), ?_, ?_, hhi _ (le_refl _), ?_, ?_⟩
  · simp [start, featuresLength]
  · simp [end_, featuresLength]
  · exact useTransform_four_second _ _ _ _ _ _ _ _ h1 h2 h3
  · exact useTransform_four_third _ _ _ _ _ _ _ _ h1 h2 h3
  · intro p hp
    rcases hp with hp | hp
    · exact hlo i p (le_of_lt hp)
    · exact hhi p (le_of_lt hp)
  · intro _
    refine ⟨end_eq_start_succ i, hhi _ (le_refl _), ?_⟩
    exact hlo (i + 1) _ (le_of_eq (end_eq_start_succ i))

/-- Witness for C8: item 2 of six, whose window is `[1/3, 1/2]`; the shared
boundary with item 3 is `1/2`, and `p = 1` lies outside the window. -/
theorem opacity_control_points_witness :
    opacity 2 (start 2) = 0 ∧ opacity 2 (start 2 + 0.08) = 1 ∧
    opacity 2 (end_ 2 - 0.08) = 1 ∧ opacity 2 (end_ 2) = 0 ∧
    opacity 2 1 = 0 ∧ opacity 3 (end_ 2) = 0 :=
  have h := opacity_control_points 2 (by decide)
  ⟨h.2.2.1, h.2.2.2.1, h.2.2.2.2.1, h.2.2.2.2.2.1,
    h.2.2.2.2.2.2.1 1 (Or.inr (by unfold end_ start featuresLength; norm_num)),
    (h.2.2.2.2.2.2.2 (by decide)).2.2⟩

/-- C9 (timer restart): whenever an operation changes `currentIndex`, the
armed interval is replaced by a single one armed at that moment with the full
6000 ms period. With six items and the timer armed at `t = 0`, after an arrow
click at `t = 1000` no tick fires at any `t < 7000` (in particular not at
6000) and the next tick fires at `t = 7000`, where it consumes the interaction
flag. After any sequence of timed operations exactly one interval is armed,
and the effect cleanup leaves none armed before the effect body arms the next. -/
theorem timer_restart :
    (∀ (N t0 : Nat) (evs : List (Nat × Op)) (t : Nat) (op : Op),
      (stepAt N (runTimed N t0 evs) (t, op)).carousel.currentIndex
          ≠ (runTimed N t0 evs).carousel.currentIndex →
        ∃ h : Nat, (stepAt N (runTimed N t0 evs) (t, op)).armed = [⟨h, t, 6000⟩] ∧
          (stepAt N (runTimed N t0 evs) (t, op)).autoplayRef = some h) ∧
    (mount 0).armed = [⟨1, 0, 6000⟩] ∧
    (∀ dir : String,
      (arrowClickAt1000 dir).armed = [⟨2, 1000, 6000⟩] ∧
      (∀ t : Nat, t < 7000 →
        stepAt 6 (arrowClickAt1000 dir) (t, Op.tick) = arrowClickAt1000 dir) ∧
      stepAt 6 (arrowClickAt1000 dir) (6000, Op.tick) = arrowClickAt1000 dir ∧
      (arrowClickAt1000 dir).carousel.userInteracted = true ∧
      stepAt 6 (arrowClickAt1000 dir) (7000, Op.tick)
        = ⟨⟨(arrowClickAt1000 dir).carousel.currentIndex,
              (arrowClickAt1000 dir).carousel.direction, false⟩,
            some 2, [⟨2, 1000, 6000⟩], 3⟩) ∧
    (∀ (N t0 : Nat) (evs : List (Nat × Op)), (runTimed N t0 evs).armed.length = 1) ∧
    (∀ (N t0 : Nat) (evs : List (Nat × Op)),
      (autoplayCleanup (runTimed N t0 evs)).armed = []) := by
  refine ⟨?_, ?_, ?_, ?_, ?_⟩
  · intro N t0 evs t op hne
    obtain ⟨h1, h2⟩ := stepAt_rearms N (runTimed N t0 evs) t op (runTimed_singleArmed N t0 evs) hne
    exact ⟨_, h1, h2⟩
  · rw [mount_eq]; rfl
  · intro dir
    obtain ⟨c, hflag, hm⟩ := arrowClickAt1000_eq dir
    have hquiet : ∀ t : Nat, t < 7000 →
        stepAt 6 (arrowClickAt1000 dir) (t, Op.tick) = arrowClickAt1000 dir := by
      intro t ht
      have hno : Interval.firesAt ⟨2, 1000, autoplayDelayMs⟩ t = false := by
        rw [Bool.eq_false_iff]
        intro hf
        have := (firesAt_armed1000 t).1 hf
        omega
      rw [hm]
      simp [stepAt, hno]
    refine ⟨?_, hquiet, hquiet 6000 (by decide), ?_, ?_⟩
    · rw [hm]; rfl
    · rw [hm]; exact hflag
    · have hyes : Interval.firesAt ⟨2, 1000, 6000⟩ 7000 = true := by decide
      rw [hm]
      simp [stepAt, hyes, autoplayTick, hflag, commit, autoplayDelayMs]
  · intro N t0 evs
    obtain ⟨h, a, harm, _⟩ := runTimed_singleArmed N t0 evs
    rw [harm]; rfl
  · intro N t0 evs
    rw [autoplayCleanup_of_singleArmed _ (runTimed_singleArmed N t0 evs)]

/-- Witness for C9: six items mounted at 0; an arrow click "next" at 1000 ms
changes the index from 0 to 1 and leaves one interval armed at 1000. -/
theorem timer_restart_witness :
    (stepAt 6 (runTimed 6 0 []) (1000, Op.arrowClick "next")).carousel.currentIndex
        ≠ (runTimed 6 0 []).carousel.currentIndex ∧
      ∃ h : Nat, (stepAt 6 (runTimed 6 0 []) (1000, Op.arrowClick "next")).armed
          = [⟨h, 1000, 6000⟩] ∧
        (stepAt 6 (runTimed 6 0 []) (1000, Op.arrowClick "next")).autoplayRef = some h :=
  ⟨by decide, timer_restart.1 6 0 [] 1000 (Op.arrowClick "next") (by decide)⟩

/-- C10, counterexample: on mount `direction` is 0, which is not the forward
value 1, and the card enter transition for it starts at `x = -300`, not `+300`. -/
theorem initial_state_counterexample :
    ¬ (initialState.currentIndex = 0 ∧
        (initialState.direction = 1 ∧ enterX initialState.direction = 300) ∧
        initialState.userInteracted = false) ∧
    initialState.direction ≠ 1 ∧ enterX initialState.direction ≠ 300 := by
  decide

/-- C10, amended: on mount, before any operation, `currentIndex` is 0,
`direction` is 0 (neither forward 1 nor backward -1; for it the card enter
transition starts at `x = -300`), and the user-interacted flag is false. -/
theorem initial_state :
    initialState.currentIndex = 0 ∧
    initialState.direction = 0 ∧
    enterX initialState.direction = -300 ∧
    initialState.userInteracted = false ∧
    (∀ now : Nat, (mount now).carousel = initialState) := by
  refine ⟨rfl, rfl, by decide, rfl, ?_⟩
  intro now
  rw [mount_eq]

/-- C11, counterexample: for item 0 the point `start + 0.08 * (end - start)`
is `1/75`, where the opacity is `1/6`, not 1; likewise at
`end - 0.08 * (end - start)`. -/
theorem fade_margin_counterexample :
    opacity 0 (start 0 + 0.08 * (end_ 0 - start 0)) = 1 / 6 ∧
    opacity 0 (end_ 0 - 0.08 * (end_ 0 - start 0)) = 1 / 6 ∧
    ¬ (opacity 0 (start 0 + 0.08 * (end_ 0 - start 0)) = 1 ∧
        opacity 0 (end_ 0 - 0.08 * (end_ 0 - start 0)) = 1) := by
  have hs : start 0 = 0 := by simp [start]
  have he : end_ 0 = 1 / 6 := by simp [end_, start, featuresLength]
  have h1 : opacity 0 (start 0 + 0.08 * (end_ 0 - start 0)) = 1 / 6 := by
    rw [opacity_rise 0 _ (by rw [hs, he]; norm_num) (by rw [hs, he]; norm_num), hs, he]
    norm_num
  have h2 : opacity 0 (end_ 0 - 0.08 * (end_ 0 - start 0)) = 1 / 6 := by
    rw [opacity_fall 0 _ (by rw [hs, he]; norm_num) (by rw [hs, he]; norm_num), hs, he]
    norm_num
  refine ⟨h1, h2, ?_⟩
  rw [h1]
  norm_num

/-- C11, amended: the fade margin is the absolute amount 0.08 of scroll
progress, which is 48% of the window width `1/6`: for every item `i` of the six
items, the opacity rises linearly from 0 at `start` to 1 at `start + 0.08`,
falls linearly from 1 at `end - 0.08` to 0 at `end`, and equals 1 exactly on
the interval `[start + 0.08, end - 0.08]`. -/
theorem fade_margin_absolute (i : Nat) (_hi : i < featuresLength) :
    (∀ p : ℚ, opacity i p = 1 ↔ (start i + 0.08 ≤ p ∧ p ≤ end_ i - 0.08)) ∧
    (∀ p : ℚ, start i ≤ p → p < start i + 0.08 → opacity i p = (p - start i) / 0.08) ∧
    (∀ p : ℚ, end_ i - 0.08 ≤ p → p ≤ end_ i → opacity i p = (end_ i - p) / 0.08) ∧
    (0.08 : ℚ) = 0.48 * (end_ i - start i) ∧
    start i + 0.08 * (end_ i - start i) < start i + 0.08 ∧
    end_ i - 0.08 < end_ i - 0.08 * (end_ i - start i) := by
  have hw : end_ i - start i = 1 / 6 := by simp [end_, featuresLength]
  refine ⟨opacity_eq_one_iff i, opacity_rise i, opacity_fall i, ?_, ?_, ?_⟩
  · rw [hw]; norm_num
  · rw [hw]; norm_num
  · rw [hw]; norm_num

/-- Witness for C11 amended: item 1 of six, window `[1/6, 1/3]`; the opacity is
1 at `p = 1/4`, which lies between `1/6 + 0.08` and `1/3 - 0.08`. -/
theorem fade_margin_absolute_witness :
    opacity 1 (1 / 4) = 1 :=
  ((fade_margin_absolute 1 (by decide)).1 (1 / 4)).2
    ⟨by unfold start featuresLength; norm_num,
      by unfold end_ start featuresLength; norm_num⟩

/-- C12 (jumpTo direction): for every `N ≥ 1`, every current index `c` and
every target `t` in `[0, N)`, a dot click on `t` sets `currentIndex` to `t`,
sets `direction` to 1 if `t > c` and to -1 otherwise (including `t = c`), and
sets the user-interacted flag to true. -/
theorem jumpTo_direction (N : Nat) (_hN : 1 ≤ N) (s : CarouselState) (t : Int)
    (h0 : 0 ≤ t) (h1 : t < N) :
    (dotClick N t s).currentIndex = t ∧
    (t > s.currentIndex → (dotClick N t s).direction = 1) ∧
    (¬ t > s.currentIndex → (dotClick N t s).direction = -1) ∧
    (t = s.currentIndex → (dotClick N t s).direction = -1) ∧
    (dotClick N t s).userInteracted = true := by
  have hdir : (dotClick N t s).direction = if t > s.currentIndex then 1 else -1 := rfl
  refine ⟨wrapIndex_of_inRange N t h0 h1, ?_, ?_, ?_, rfl⟩
  · intro h; rw [hdir, if_pos h]
  · intro h; rw [hdir, if_neg h]
  · intro h; rw [hdir, if_neg (by rw [h]; exact lt_irrefl _)]

/-- Witness for C12: six items at index 2; a dot click on 4 gives index 4 and
direction 1, a dot click on 2 gives index 2 and direction -1. -/
theorem jumpTo_direction_witness :
    dotClick 6 4 ⟨2, 1, false⟩ = ⟨4, 1, true⟩ ∧
    (dotClick 6 2 ⟨2, 1, false⟩).currentIndex = 2 ∧
    (dotClick 6 2 ⟨2, 1, false⟩).direction = -1 :=
  have h := jumpTo_direction 6 (by decide) ⟨2, 1, false⟩ 2 (by decide) (by decide)
  ⟨by decide, h.1, h.2.2.2.1 rfl⟩

/-- C13 (at most one item visible): for the six-item list, every scroll
progress `p` in `[0, 1]` and every pair of distinct item indices `i ≠ j`, if
item `i` has `opacity p > 0` then item `j` has `opacity p = 0`; the opacity of
an item is non-zero exactly on its open window `(i/6, (i+1)/6)`, and the
windows of distinct items are disjoint. -/
theorem one_item_visible (i j : Nat) (_hi : i < featuresLength) (_hj : j < featuresLength)
    (hij : i ≠ j) (p : ℚ) (_hp0 : 0 ≤ p) (_hp1 : p ≤ 1) (hpos : 0 < opacity i p) :
    opacity j p = 0 ∧
    (∀ q : ℚ, 0 < opacity i q ↔ ((i : ℚ) / 6 < q ∧ q < ((i : ℚ) + 1) / 6)) ∧
    (∀ q : ℚ, opacity i q ≠ 0 ↔ ((i : ℚ) / 6 < q ∧ q < ((i : ℚ) + 1) / 6)) := by
  have hs : start i = (i : ℚ) / 6 := by simp [start, featuresLength]
  have he : end_ i = ((i : ℚ) + 1) / 6 := by
    simp only [end_, start, featuresLength]; push_cast; ring
  obtain ⟨hlo, hhi⟩ := (opacity_pos_iff i p).1 hpos
  have hposiff : ∀ q : ℚ, 0 < opacity i q ↔ ((i : ℚ) / 6 < q ∧ q < ((i : ℚ) + 1) / 6) := by
    intro q; rw [opacity_pos_iff, hs, he]
  refine ⟨?_, hposiff, ?_⟩
  · rcases Nat.lt_or_gt_of_ne hij with h | h
    · exact opacity_below j p (le_of_lt (lt_of_lt_of_le hhi (window_disjoint i j h)))
    · exact opacity_above j p (le_of_lt (lt_of_le_of_lt (window_disjoint j i h) hlo))
  · intro q
    rw [← hposiff q]
    constructor
    · intro hne
      rcases lt_or_le q (start i) with h | h
      · exact absurd (opacity_below i q (le_of_lt h)) hne
      · rcases lt_or_le q (end_ i) with h2 | h2
        · rcases lt_or_eq_of_le h with h3 | h3
          · exact (opacity_pos_iff i q).2 ⟨h3, h2⟩
          · exact absurd (opacity_below i q (le_of_eq h3.symm)) hne
        · exact absurd (opacity_above i q h2) hne
    · intro h; exact ne_of_gt h

/-- Witness for C13: at `p = 1/4`, inside the window of item 1, items 1 and 4
are distinct, item 1 has opacity 1 and item 4 has opacity 0. -/
theorem one_item_visible_witness :
    0 < opacity 1 (1 / 4) ∧ opacity 4 (1 / 4) = 0 :=
  have hpos : 0 < opacity 1 (1 / 4) :=
    (opacity_pos_iff 1 (1 / 4)).2
      ⟨by unfold start featuresLength; norm_num,
        by unfold end_ start featuresLength; norm_num⟩
  ⟨hpos, (one_item_visible 1 4 (by decide) (by decide) (by decide) (1 / 4)
    (by norm_num) (by norm_num) hpos).1⟩

end Rihla
